import Mathlib

/-!
# AstroCards: page-to-card generation pipeline

A shallow embedding of `internal/cardgen/cardgen.go` (with the `Page` record of
`internal/pdfreader/pdfreader.go`), followed by theorems about `parseCardsJSON`,
`GenerateCards` and `GenerateCardsAsync`.

Modelling conventions.

* Go `int` values that are only stored and copied (page numbers) are `Int`.
* Go strings are `String`.  The strings that are trimmed come out of the JSON decoder and are
  therefore valid UTF-8, so a list of Unicode scalar values describes them exactly.
* `encoding/json.Unmarshal` and the Ollama client are external libraries.  They are parameters
  of the embedding: the decoder is a function from the response text to the pair
  (error, decoded value) -- a pair, because Go hands back a possibly partly filled value
  together with a non-nil error -- and the client is a state-passing function, so that its
  reply may depend on everything it has been asked before.
* The goroutine of `GenerateCardsAsync` is embedded as the sequential function that its body
  computes, returning what it sent on each channel and whether it panicked.  Every send on the
  progress channel is taken to be received.
* `float64` values are embedded exactly as dyadic rationals with round-to-nearest-even.
-/

namespace AstroCards

/-! ## Data model -/

/-- Page of `pdfreader`: a page number and the text of the page. -/
structure Page where
  Number : Int
  Content : String
deriving DecidableEq, Repr

/-- Card of `cardgen`: a generated card of a page. -/
structure Card where
  PageNumber : Int
  Question : String
  Answer : String
deriving DecidableEq, Repr

/-- The local type `cardObj` of `parseCardsJSON`. -/
structure cardObj where
  Question : String
  Answer : String
deriving DecidableEq, Repr

/-- The local type `cardsResp` of `parseCardsJSON`. -/
structure cardsResp where
  Cards : List cardObj
deriving DecidableEq, Repr

/-- What `json.Unmarshal([]byte(response), &result)` leaves behind: the returned error
(`none` for `nil`) and the value of `result` after the call. -/
abbrev Unmarshal (δ : Type) := String → Option δ × cardsResp

/-! ## `strings.TrimSpace` -/

/-- Go's `unicode.IsSpace`: the Latin-1 cases of the switch, then the `White_Space` table. -/
def isSpace (c : Char) : Bool :=
  let r := c.toNat
  if r ≤ 0xFF then
    r = 0x09 || r = 0x0A || r = 0x0B || r = 0x0C || r = 0x0D || r = 0x20 || r = 0x85 || r = 0xA0
  else
    r = 0x1680 || (0x2000 ≤ r && r ≤ 0x200A) || r = 0x2028 || r = 0x2029 || r = 0x202F
      || r = 0x205F || r = 0x3000

/-- Go's `strings.TrimSpace`: the string without its leading and trailing white space. -/
def TrimSpace (s : String) : String :=
  ⟨((s.data.dropWhile isSpace).reverse.dropWhile isSpace).reverse⟩

/-! ## `parseCardsJSON` -/

/-- The fallback card: the page content as the question and an empty answer. -/
def fallbackCard (pageNumber : Int) (fallbackContent : String) : Card :=
  { PageNumber := pageNumber, Question := fallbackContent, Answer := "" }

/-- The `for _, c := range result.Cards` loop of `parseCardsJSON`: an entry whose answer is the
empty string is skipped, every other entry is appended with both fields trimmed. -/
def parseLoop (pageNumber : Int) : List cardObj → List Card
  | [] => []
  | c :: rest =>
    if c.Answer = "" then parseLoop pageNumber rest
    else
      { PageNumber := pageNumber,
        Question := TrimSpace c.Question,
        Answer := TrimSpace c.Answer } :: parseLoop pageNumber rest

/-- The function `parseCardsJSON` of cardgen.go. -/
def parseCardsJSON {δ : Type} (unmarshal : Unmarshal δ) (response : String) (pageNumber : Int)
    (fallbackContent : String) : List Card :=
  let (err, result) := unmarshal response
  if err.isSome || result.Cards.length = 0 then
    [fallbackCard pageNumber fallbackContent]
  else
    parseLoop pageNumber result.Cards

/-! ## The model client and `CardFromOllama` -/

/-- The fields of `ollamaapi.GenerateRequest` that `CardFromOllama` sets. -/
structure GenerateRequest where
  Model : String
  Prompt : String
  Format : String
deriving DecidableEq, Repr

/-- The behaviour of `Client.Generate` as `CardFromOllama` sees it: from the state of the world
and a request, the chunks handed to the callback in order, the error returned (`none` for
`nil`), and the next state of the world. -/
abbrev Client (σ ε : Type) := σ → GenerateRequest → (List String × Option ε) × σ

/-- The struct `CardGenerator` of cardgen.go. -/
structure CardGenerator (σ ε : Type) where
  OllamaURL : String
  Model : String
  Client : Client σ ε

/-- The constant `CardPrompt` of cardgen.go, up to its `%s` verb. -/
def CardPrompt : String := "Erstelle mit den folgenden content Karteikarten\nContent:\n"

/-- The constant `DefaultPrompt` of cardgen.go. -/
def DefaultPrompt : String := CardPrompt

/-- The variable `CardsJSONSchema` of cardgen.go. -/
def CardsJSONSchema : String :=
  "\x7b\n  \"type\": \"object\",\n  \"properties\": \x7b\n    \"cards\": \x7b\n" ++
  "      \"type\": \"array\",\n      \"items\": \x7b\n        \"type\": \"object\",\n" ++
  "        \"properties\": \x7b\n          \"question\": \x7b\"type\": \"string\"\x7d,\n" ++
  "          \"answer\": \x7b\"type\": \"string\"\x7d\n        \x7d,\n" ++
  "        \"required\": [\"question\", \"answer\"]\n      \x7d\n    \x7d\n  \x7d,\n" ++
  "  \"required\": [\"cards\"]\n\x7d"

/-- The request that `CardFromOllama` builds for a page: `fmt.Sprintf(DefaultPrompt,
page.Content)` is the template followed by the content. -/
def requestFor {σ ε : Type} (cg : CardGenerator σ ε) (page : Page) : GenerateRequest :=
  { Model := cg.Model, Prompt := DefaultPrompt ++ page.Content, Format := CardsJSONSchema }

/-- The callback of `CardFromOllama` run over the chunks: `response += resp.Response`. -/
def collectResponse (chunks : List String) : String :=
  chunks.foldl (fun response chunk => response ++ chunk) ""

/-- The method `CardFromOllama` of cardgen.go: the pair `(cards, err)` it returns and the next
state of the world. -/
def CardFromOllama {σ ε δ : Type} (unmarshal : Unmarshal δ) (cg : CardGenerator σ ε) (s : σ)
    (page : Page) : (List Card × Option ε) × σ :=
  let (reply, s') := cg.Client s (requestFor cg page)
  let response := collectResponse reply.1
  match reply.2 with
  | some err => (([], some err), s')
  | none => ((parseCardsJSON unmarshal response page.Number page.Content, none), s')

/-! ## `GenerateCards` -/

/-- The `for _, page := range pages` loop of `GenerateCards`, from the current `cards` and
`lastErr`. -/
def GenerateCards.loop {σ ε δ : Type} (unmarshal : Unmarshal δ) (cg : CardGenerator σ ε) :
    List Page → σ → List Card → Option ε → (List Card × Option ε) × σ
  | [], s, cards, lastErr => ((cards, lastErr), s)
  | page :: rest, s, cards, lastErr =>
    match CardFromOllama unmarshal cg s page with
    | ((_, some err), s') => GenerateCards.loop unmarshal cg rest s' cards (some err)
    | ((pageCards, none), s') =>
      GenerateCards.loop unmarshal cg rest s' (cards ++ pageCards) lastErr

/-- The method `GenerateCards` of cardgen.go. -/
def GenerateCards {σ ε δ : Type} (unmarshal : Unmarshal δ) (cg : CardGenerator σ ε) (s : σ)
    (pages : List Page) : (List Card × Option ε) × σ :=
  GenerateCards.loop unmarshal cg pages s [] none

/-! ## `float64` arithmetic

A finite non-negative `float64` is the dyadic rational `num / den`, with `den` a power of two.
Every operation rounds the exact result to 53 significant bits, to nearest, ties to even.  The
exponent is not bounded: the embedding is exact as long as the results stay in the normal range
`[2^-1022, 2^1024)`, which they do for the quotients and products of Go `int` values below. -/

/-- Bit length minus one, by halving at most `fuel` times. -/
def log2Aux : Nat → Nat → Nat
  | 0, _ => 0
  | fuel + 1, n => if n < 2 then 0 else log2Aux fuel (n / 2) + 1

/-- The position of the highest set bit of `n` (0 for `n = 0`). -/
def log2 (n : Nat) : Nat := log2Aux n n

/-- The integer nearest to `n / d`, the even one of the two on a tie. -/
def roundHalfEven (n d : Nat) : Nat :=
  let q := n / d
  let r := n % d
  if 2 * r < d then q
  else if d < 2 * r then q + 1
  else if q % 2 = 0 then q else q + 1

/-- A finite non-negative `float64` value, `num / den`. -/
structure Float64 where
  num : Nat
  den : Nat
deriving DecidableEq, Repr

/-- The binary scaling `(u, v)` that brings `n / d` into the significand range:
`2^52 ≤ (n * 2^u) / (d * 2^v) < 2^53`. -/
def Float64.shifts (n d : Nat) : Nat × Nat :=
  let ln := log2 n
  let ld := log2 d
  let u := (ld + 52) - ln
  let v := ln - (ld + 52)
  if 2 ^ 52 * (d * 2 ^ v) ≤ n * 2 ^ u then (u, v)
  else if v = 0 then (u + 1, 0) else (0, v - 1)

/-- The `float64` nearest to `n / d` (ties to even), for `d > 0`. -/
def Float64.ofRatio (n d : Nat) : Float64 :=
  if n = 0 then ⟨0, 1⟩
  else
    let (u, v) := Float64.shifts n d
    ⟨roundHalfEven (n * 2 ^ u) (d * 2 ^ v) * 2 ^ v, 2 ^ u⟩

/-- The conversion `float64(i)` of a non-negative `int`. -/
def Float64.ofInt (i : Nat) : Float64 := Float64.ofRatio i 1

/-- The `float64` quotient `x / y`, for `y > 0`. -/
def Float64.div (x y : Float64) : Float64 := Float64.ofRatio (x.num * y.den) (y.num * x.den)

/-- The `float64` product `x * y`. -/
def Float64.mul (x y : Float64) : Float64 := Float64.ofRatio (x.num * y.num) (x.den * y.den)

/-- The conversion `int(x)`: the fraction is discarded. -/
def Float64.toInt (x : Float64) : Int := ((x.num / x.den : Nat) : Int)

/-- The value `percent` of `GenerateCardsAsync` at loop index `i`:
`int(float64(i+1) / float64(total) * 100)`. -/
def percent (i total : Nat) : Int :=
  Float64.toInt
    (Float64.mul (Float64.div (Float64.ofInt (i + 1)) (Float64.ofInt total)) (Float64.ofInt 100))

/-- The rational number that a `float64` value stands for. -/
def Float64.val (x : Float64) : ℚ := (x.num : ℚ) / (x.den : ℚ)

/-- The integer `m` is a nearest integer to `x`, and the even one when `x` lies half way
between two integers. -/
def NearestEven (m : Nat) (x : ℚ) : Prop :=
  (m : ℚ) - 1 / 2 ≤ x ∧ x ≤ (m : ℚ) + 1 / 2 ∧
    (x = (m : ℚ) + 1 / 2 → m % 2 = 0) ∧ (x = (m : ℚ) - 1 / 2 → m % 2 = 0)

/-! ## `GenerateCardsAsync` -/

/-- What the goroutine of `GenerateCardsAsync` has done when it stops.  `progress` is the
channel argument afterwards (`none` for a nil channel, else the values sent on it in order),
`result` what was sent on `resultChan`, `err` what was sent on `errChan` (`some none` is a
delivered `nil`), `panicked` whether the goroutine stopped in a runtime panic. -/
structure AsyncRun (ε : Type) where
  progress : Option (List Int)
  progressClosed : Bool
  result : Option (List Card)
  err : Option (Option ε)
  panicked : Bool

/-- The `for i, page := range pages` loop of the goroutine, from index `i`, the current `cards`
and the current state of the progress channel. -/
def GenerateCardsAsync.loop {σ ε δ : Type} (unmarshal : Unmarshal δ) (cg : CardGenerator σ ε)
    (total : Nat) : List Page → Nat → σ → List Card → Option (List Int) →
    (List Card × Option (List Int)) × σ
  | [], _, s, cards, progress => ((cards, progress), s)
  | page :: rest, i, s, cards, progress =>
    let (r, s') := CardFromOllama unmarshal cg s page
    let pageCards :=
      match r.2 with
      | some _ => [fallbackCard page.Number page.Content]
      | none => r.1
    let progress' :=
      match progress with
      | some sent => if total > 0 then some (sent ++ [percent i total]) else some sent
      | none => none
    GenerateCardsAsync.loop unmarshal cg total rest (i + 1) s' (cards ++ pageCards) progress'

/-- The body of the goroutine started by `GenerateCardsAsync` of cardgen.go, with the channel
argument `progress` (`none` is the nil channel, `some []` a fresh channel).  After the loop it
sends the cards, closes `resultChan`, closes `progress` -- a runtime panic when `progress` is
nil -- and only then sends `nil` on `errChan`. -/
def GenerateCardsAsync {σ ε δ : Type} (unmarshal : Unmarshal δ) (cg : CardGenerator σ ε) (s : σ)
    (pages : List Page) (progress : Option (List Int)) : AsyncRun ε × σ :=
  let (r, s') := GenerateCardsAsync.loop unmarshal cg pages.length pages 0 s [] progress
  match r.2 with
  | none =>
    ({ progress := none, progressClosed := false, result := some r.1, err := none,
       panicked := true }, s')
  | some sent =>
    ({ progress := some sent, progressClosed := true, result := some r.1, err := some none,
       panicked := false }, s')

/-! ## Specification-side definitions -/

/-- What the model client answers for each page when asked for the pages in turn: the
response text and the error. -/
def clientReplies {σ ε : Type} (cg : CardGenerator σ ε) : σ → List Page → List (String × Option ε)
  | _, [] => []
  | s, page :: rest =>
    let (reply, s') := cg.Client s (requestFor cg page)
    (collectResponse reply.1, reply.2) :: clientReplies cg s' rest

/-- The contribution of one page to the synchronous result: the parsed cards of a successful
generation, nothing for a failed one. -/
def syncContribution {ε δ : Type} (unmarshal : Unmarshal δ) (page : Page)
    (reply : String × Option ε) : List Card :=
  match reply.2 with
  | none => parseCardsJSON unmarshal reply.1 page.Number page.Content
  | some _ => []

/-- The contribution of one page to the asynchronous result: the parsed cards of a successful
generation, one fallback card for a failed one. -/
def asyncContribution {ε δ : Type} (unmarshal : Unmarshal δ) (page : Page)
    (reply : String × Option ε) : List Card :=
  match reply.2 with
  | none => parseCardsJSON unmarshal reply.1 page.Number page.Content
  | some _ => [fallbackCard page.Number page.Content]

/-- The error of the last reply that failed, `none` when none failed. -/
def lastError {ε : Type} (replies : List (String × Option ε)) : Option ε :=
  (replies.filterMap (fun reply => reply.2)).getLast?

/-- The page numbers with each one repeated the given number of times, in place. -/
def expandNumbers : List Page → List Nat → List Int
  | page :: rest, c :: counts => List.replicate c page.Number ++ expandNumbers rest counts
  | _, _ => []

/-- The percentage `100 * k / N` rounded to the nearest integer (halves upwards), as the
specification words it. -/
def roundedPercent (k N : Nat) : Int := ((200 * k + N) / (2 * N) : Nat)

/-! ## Fixtures for the examples -/

/-- A decoder that agrees with `encoding/json` on a handful of responses and reports an error
on every other text.  The responses, in order: an empty `cards` array; the two-entry response
whose second answer is empty; padded question and answer; a blank answer; an empty answer. -/
def sampleUnmarshal : Unmarshal Unit := fun response =>
  if response = "\x7b\"cards\":[]\x7d" then (none, ⟨[]⟩)
  else if response = "\x7b\"cards\":[\x7b\"question\":\"Q1\",\"answer\":\"A1\"\x7d," ++
      "\x7b\"question\":\"Q2\",\"answer\":\"\"\x7d]\x7d" then
    (none, ⟨[⟨"Q1", "A1"⟩, ⟨"Q2", ""⟩]⟩)
  else if response = "\x7b\"cards\":[\x7b\"question\":\"  Q  \",\"answer\":\"  A  \"\x7d]\x7d" then
    (none, ⟨[⟨"  Q  ", "  A  "⟩]⟩)
  else if response = "\x7b\"cards\":[\x7b\"question\":\"Q\",\"answer\":\" \"\x7d]\x7d" then
    (none, ⟨[⟨"Q", " "⟩]⟩)
  else if response = "\x7b\"cards\":[\x7b\"question\":\"Q\",\"answer\":\"\"\x7d]\x7d" then
    (none, ⟨[⟨"Q", ""⟩]⟩)
  else (some (), ⟨[]⟩)

/-- A client that answers its `n`-th call with the `n`-th entry of a script (and with an empty
successful reply once the script is used up); the state counts the calls. -/
def scriptedClient {ε : Type} (script : List (List String × Option ε)) : Client Nat ε :=
  fun n _ => (script.getD n ([], none), n + 1)

/-- A generator around a scripted client. -/
def scriptedGenerator {ε : Type} (script : List (List String × Option ε)) :
    CardGenerator Nat ε :=
  { OllamaURL := "http://localhost:11434", Model := "llama3.2", Client := scriptedClient script }

/-- The pages numbered `1, …, n`, each without text. -/
def numberedPages (n : Nat) : List Page :=
  (List.range n).map (fun i => { Number := (i : Int) + 1, Content := "" })

/-- A generator whose client answers every call with an empty successful reply. -/
def silentGenerator : CardGenerator Nat Unit := scriptedGenerator []

/-- The response whose only entry has a blank answer. -/
def blankAnswerResponse : String :=
  "\x7b\"cards\":[\x7b\"question\":\"Q\",\"answer\":\" \"\x7d]\x7d"

/-- The response whose only entry has an empty answer. -/
def emptyAnswerResponse : String :=
  "\x7b\"cards\":[\x7b\"question\":\"Q\",\"answer\":\"\"\x7d]\x7d"

/-- The response with a padded question and answer. -/
def paddedResponse : String :=
  "\x7b\"cards\":[\x7b\"question\":\"  Q  \",\"answer\":\"  A  \"\x7d]\x7d"

end AstroCards

namespace AstroCards

/-! ## `parseCardsJSON` -/

theorem parseCardsJSON_of_decoded {δ : Type} (unmarshal : Unmarshal δ) (response : String)
    (pageNumber : Int) (fallbackContent : String) (entries : List cardObj)
    (hdec : unmarshal response = (none, ⟨entries⟩)) (hne : entries ≠ []) :
    parseCardsJSON unmarshal response pageNumber fallbackContent
      = parseLoop pageNumber entries := by
  cases entries with
  | nil => exact absurd rfl hne
  | cons e es => simp [parseCardsJSON, hdec]

/-- C1: when the response fails to decode, or decodes to zero cards, `parseCardsJSON` returns
exactly one card: the page number, the fallback content unchanged as the question, and an
empty answer. -/
theorem parseCardsJSON_fallback {δ : Type} (unmarshal : Unmarshal δ) (response : String)
    (pageNumber : Int) (fallbackContent : String)
    (h : (unmarshal response).1 ≠ none ∨ (unmarshal response).2.Cards = []) :
    parseCardsJSON unmarshal response pageNumber fallbackContent
      = [{ PageNumber := pageNumber, Question := fallbackContent, Answer := "" }] := by
  rcases hu : unmarshal response with ⟨err, result⟩
  rw [hu] at h
  rcases h with h | h
  · cases err with
    | none => exact absurd rfl h
    | some e => simp [parseCardsJSON, hu, fallbackCard]
  · simp only at h
    simp [parseCardsJSON, hu, fallbackCard, h]

theorem parseCardsJSON_fallback_witness :
    ((sampleUnmarshal "not json").1 ≠ none ∨ (sampleUnmarshal "not json").2.Cards = []) ∧
    parseCardsJSON sampleUnmarshal "not json" 5 "hello"
      = [{ PageNumber := 5, Question := "hello", Answer := "" }] :=
  ⟨Or.inl (by decide), parseCardsJSON_fallback sampleUnmarshal "not json" 5 "hello"
    (Or.inl (by decide))⟩

/-- C2 (the code at the failing input): the response whose only entry has the answer `" "`
decodes to a non-empty array, and `parseCardsJSON` returns a card for it whose answer is
empty -- the entry is not discarded. -/
theorem parseCardsJSON_keeps_blank_answer :
    sampleUnmarshal blankAnswerResponse = (none, ⟨[⟨"Q", " "⟩]⟩) ∧
    parseCardsJSON sampleUnmarshal blankAnswerResponse 3 "content"
      = [{ PageNumber := 3, Question := "Q", Answer := "" }] := by
  decide

theorem parseLoop_of_answers_ne (pageNumber : Int) (entries : List cardObj)
    (h : ∀ e ∈ entries, e.Answer ≠ "") :
    parseLoop pageNumber entries
      = entries.map (fun e =>
          { PageNumber := pageNumber, Question := TrimSpace e.Question,
            Answer := TrimSpace e.Answer }) := by
  induction entries with
  | nil => rfl
  | cons e es ih =>
    have he : e.Answer ≠ "" := h e (List.mem_cons_self e es)
    have hes : ∀ x ∈ es, x.Answer ≠ "" := fun x hx => h x (List.mem_cons_of_mem e hx)
    simp [parseLoop, he, ih hes]

theorem parseLoop_pageNumber (pageNumber : Int) (entries : List cardObj) :
    ∀ c ∈ parseLoop pageNumber entries, c.PageNumber = pageNumber := by
  induction entries with
  | nil => intro c hc; simp [parseLoop] at hc
  | cons e es ih =>
    intro c hc
    by_cases he : e.Answer = ""
    · simp only [parseLoop, he, if_true] at hc
      exact ih c hc
    · simp only [parseLoop, he, if_false, List.mem_cons] at hc
      rcases hc with hc | hc
      · rw [hc]
      · exact ih c hc

theorem parseCardsJSON_pageNumber {δ : Type} (unmarshal : Unmarshal δ) (response : String)
    (pageNumber : Int) (fallbackContent : String) :
    ∀ c ∈ parseCardsJSON unmarshal response pageNumber fallbackContent,
      c.PageNumber = pageNumber := by
  intro c hc
  rcases hu : unmarshal response with ⟨err, result⟩
  simp only [parseCardsJSON, hu] at hc
  split at hc
  · simp only [List.mem_singleton] at hc
    rw [hc]; rfl
  · exact parseLoop_pageNumber pageNumber result.Cards c hc

/-- C3: when the response decodes to a non-empty list of entries whose answers each contain a
character that is not white space, `parseCardsJSON` returns one card per entry, in order, with
the given page number and with the question and the answer trimmed; nothing is asked of the
questions, so an entry with an empty question is kept. -/
theorem parseCardsJSON_all_kept {δ : Type} (unmarshal : Unmarshal δ) (response : String)
    (pageNumber : Int) (fallbackContent : String) (entries : List cardObj)
    (hdec : unmarshal response = (none, ⟨entries⟩)) (hne : entries ≠ [])
    (hans : ∀ e ∈ entries, ∃ c ∈ e.Answer.data, isSpace c = false) :
    parseCardsJSON unmarshal response pageNumber fallbackContent
      = entries.map (fun e =>
          { PageNumber := pageNumber, Question := TrimSpace e.Question,
            Answer := TrimSpace e.Answer }) := by
  rw [parseCardsJSON_of_decoded unmarshal response pageNumber fallbackContent entries hdec hne]
  apply parseLoop_of_answers_ne
  intro e he hempty
  obtain ⟨c, hc, _⟩ := hans e he
  rw [hempty] at hc
  simp at hc

theorem parseCardsJSON_all_kept_witness :
    sampleUnmarshal paddedResponse = (none, ⟨[⟨"  Q  ", "  A  "⟩]⟩) ∧
    parseCardsJSON sampleUnmarshal paddedResponse 7 "content"
      = [{ PageNumber := 7, Question := "Q", Answer := "A" }] :=
  ⟨by decide,
   (parseCardsJSON_all_kept sampleUnmarshal paddedResponse 7 "content" [⟨"  Q  ", "  A  "⟩]
      (by decide) (by decide)
      (by
        intro e he
        simp only [List.mem_singleton] at he
        subst he
        exact ⟨'A', by decide, by decide⟩)).trans (by decide)⟩

/-! ## `GenerateCards` -/

theorem lastError_cons {ε : Type} (r : String × Option ε) (rs : List (String × Option ε)) :
    lastError (r :: rs) = (lastError rs).or r.2 := by
  rcases r with ⟨text, err⟩
  cases err with
  | none => simp [lastError]
  | some e =>
    simp only [lastError, List.filterMap_cons, List.getLast?_cons]
    cases (List.filterMap (fun reply : String × Option ε => reply.2) rs).getLast? <;> rfl

theorem lastError_eq_none_iff {ε : Type} (rs : List (String × Option ε)) :
    lastError rs = none ↔ ∀ r ∈ rs, r.2 = none := by
  simp only [lastError, List.getLast?_eq_none_iff, List.filterMap_eq_nil_iff]

theorem clientReplies_length {σ ε : Type} (cg : CardGenerator σ ε) (s : σ) (pages : List Page) :
    (clientReplies cg s pages).length = pages.length := by
  induction pages generalizing s with
  | nil => rfl
  | cons page rest ih => simp [clientReplies, ih]

theorem GenerateCards_loop_eq {σ ε δ : Type} (unmarshal : Unmarshal δ) (cg : CardGenerator σ ε)
    (pages : List Page) (s : σ) (cards : List Card) (lastErr : Option ε) :
    (GenerateCards.loop unmarshal cg pages s cards lastErr).1
      = (cards ++ (List.zipWith (syncContribution unmarshal) pages
                    (clientReplies cg s pages)).flatten,
         (lastError (clientReplies cg s pages)).or lastErr) := by
  induction pages generalizing s cards lastErr with
  | nil => simp [GenerateCards.loop, clientReplies, lastError]
  | cons page rest ih =>
    rcases hc : cg.Client s (requestFor cg page) with ⟨⟨chunks, err⟩, s'⟩
    cases err with
    | none =>
      simp only [GenerateCards.loop, CardFromOllama, hc, clientReplies, ih, lastError_cons,
        List.zipWith_cons_cons, List.flatten_cons, syncContribution, List.append_assoc,
        Option.or_none]
    | some e =>
      simp only [GenerateCards.loop, CardFromOllama, hc, clientReplies, ih, lastError_cons,
        List.zipWith_cons_cons, List.flatten_cons, syncContribution, List.nil_append]
      cases lastError (clientReplies cg s' rest) <;> rfl

theorem GenerateCards_eq {σ ε δ : Type} (unmarshal : Unmarshal δ) (cg : CardGenerator σ ε)
    (s : σ) (pages : List Page) :
    (GenerateCards unmarshal cg s pages).1
      = ((List.zipWith (syncContribution unmarshal) pages (clientReplies cg s pages)).flatten,
         lastError (clientReplies cg s pages)) := by
  have h := GenerateCards_loop_eq unmarshal cg pages s [] none
  simp only [List.nil_append, Option.or_none] at h
  exact h

/-- C4: `GenerateCards` returns the concatenation, in page order, of
`parseCardsJSON(text, page.Number, page.Content)` over the pages whose generation succeeded
(a failed page contributes nothing and later pages are still processed), together with the
error of the last page that failed, which is nil exactly when no page failed. -/
theorem GenerateCards_spec {σ ε δ : Type} (unmarshal : Unmarshal δ) (cg : CardGenerator σ ε)
    (s : σ) (pages : List Page) :
    (clientReplies cg s pages).length = pages.length ∧
    (GenerateCards unmarshal cg s pages).1
      = ((List.zipWith (syncContribution unmarshal) pages (clientReplies cg s pages)).flatten,
         lastError (clientReplies cg s pages)) ∧
    ((GenerateCards unmarshal cg s pages).1.2 = none
      ↔ ∀ reply ∈ clientReplies cg s pages, reply.2 = none) := by
  refine ⟨clientReplies_length cg s pages, GenerateCards_eq unmarshal cg s pages, ?_⟩
  rw [GenerateCards_eq unmarshal cg s pages]
  exact lastError_eq_none_iff _

/-! ## `GenerateCardsAsync` -/

theorem GenerateCardsAsync_loop_eq {σ ε δ : Type} (unmarshal : Unmarshal δ)
    (cg : CardGenerator σ ε) (total : Nat) (pages : List Page) (i : Nat) (s : σ)
    (cards : List Card) (progress : Option (List Int)) :
    (GenerateCardsAsync.loop unmarshal cg total pages i s cards progress).1
      = (cards ++ (List.zipWith (asyncContribution unmarshal) pages
                    (clientReplies cg s pages)).flatten,
         progress.map (fun sent =>
           sent ++ if total > 0 then (List.range' i pages.length).map (fun j => percent j total)
                   else [])) := by
  induction pages generalizing i s cards progress with
  | nil => cases progress <;> simp [GenerateCardsAsync.loop, clientReplies]
  | cons page rest ih =>
    rcases hc : cg.Client s (requestFor cg page) with ⟨⟨chunks, err⟩, s'⟩
    cases err <;> cases progress <;> by_cases ht : total > 0 <;>
      simp [GenerateCardsAsync.loop, CardFromOllama, hc, clientReplies, ih,
        asyncContribution, List.range'_succ, ht]

theorem GenerateCardsAsync_result {σ ε δ : Type} (unmarshal : Unmarshal δ)
    (cg : CardGenerator σ ε) (s : σ) (pages : List Page) (progress : Option (List Int)) :
    (GenerateCardsAsync unmarshal cg s pages progress).1.result
      = some (List.zipWith (asyncContribution unmarshal) pages
                (clientReplies cg s pages)).flatten := by
  have h := GenerateCardsAsync_loop_eq unmarshal cg pages.length pages 0 s [] progress
  rcases hl : GenerateCardsAsync.loop unmarshal cg pages.length pages 0 s [] progress
    with ⟨⟨cards, prog⟩, s'⟩
  rw [hl] at h
  simp only [List.nil_append, Prod.mk.injEq] at h
  cases prog <;> simp [GenerateCardsAsync, hl, h.1]

theorem GenerateCardsAsync_progress {σ ε δ : Type} (unmarshal : Unmarshal δ)
    (cg : CardGenerator σ ε) (s : σ) (pages : List Page) (sent : List Int) :
    (GenerateCardsAsync unmarshal cg s pages (some sent)).1.progress
      = some (sent ++ (List.range pages.length).map (fun j => percent j pages.length)) := by
  have h := GenerateCardsAsync_loop_eq unmarshal cg pages.length pages 0 s [] (some sent)
  rcases hl : GenerateCardsAsync.loop unmarshal cg pages.length pages 0 s [] (some sent)
    with ⟨⟨cards, prog⟩, s'⟩
  rw [hl] at h
  simp only [List.nil_append, Prod.mk.injEq, Option.map_some'] at h
  have hp := h.2
  subst hp
  simp only [GenerateCardsAsync, hl, List.range_eq_range']
  cases pages with
  | nil => simp
  | cons p ps => simp

/-- C5: the cards that `GenerateCardsAsync` delivers are the concatenation, in page order, of
the per-page contributions -- the parsed cards of a page whose generation succeeded, one
fallback card for a page whose generation failed; a completion signal that is delivered is
nil, and with a progress channel it is delivered. -/
theorem GenerateCardsAsync_spec {σ ε δ : Type} (unmarshal : Unmarshal δ)
    (cg : CardGenerator σ ε) (s : σ) (pages : List Page) (progress : Option (List Int)) :
    (clientReplies cg s pages).length = pages.length ∧
    (GenerateCardsAsync unmarshal cg s pages progress).1.result
      = some (List.zipWith (asyncContribution unmarshal) pages
                (clientReplies cg s pages)).flatten ∧
    (∀ signal, (GenerateCardsAsync unmarshal cg s pages progress).1.err = some signal →
      signal = none) ∧
    (∀ sent, (GenerateCardsAsync unmarshal cg s pages (some sent)).1.err = some none) := by
  refine ⟨clientReplies_length cg s pages,
    GenerateCardsAsync_result unmarshal cg s pages progress, ?_, ?_⟩
  · intro signal h
    rcases hl : GenerateCardsAsync.loop unmarshal cg pages.length pages 0 s [] progress
      with ⟨⟨cards, prog⟩, s'⟩
    cases prog <;> simp [GenerateCardsAsync, hl] at h
    exact h.symm
  · intro sent
    have h := GenerateCardsAsync_loop_eq unmarshal cg pages.length pages 0 s [] (some sent)
    rcases hl : GenerateCardsAsync.loop unmarshal cg pages.length pages 0 s [] (some sent)
      with ⟨⟨cards, prog⟩, s'⟩
    rw [hl] at h
    simp only [Option.map_some', Prod.mk.injEq] at h
    have hp := h.2
    subst hp
    simp [GenerateCardsAsync, hl]

/-- C10 (the code on a nil progress channel): for every page sequence the goroutine sends no
progress and delivers the cards, then stops in the runtime panic of `close(progress)` and never
delivers the completion signal. -/
theorem GenerateCardsAsync_nil_progress_panics {σ ε δ : Type} (unmarshal : Unmarshal δ)
    (cg : CardGenerator σ ε) (s : σ) (pages : List Page) :
    (GenerateCardsAsync unmarshal cg s pages none).1.progress = none ∧
    (GenerateCardsAsync unmarshal cg s pages none).1.result
      = some (List.zipWith (asyncContribution unmarshal) pages
                (clientReplies cg s pages)).flatten ∧
    (GenerateCardsAsync unmarshal cg s pages none).1.panicked = true ∧
    (GenerateCardsAsync unmarshal cg s pages none).1.err = none := by
  have h := GenerateCardsAsync_loop_eq unmarshal cg pages.length pages 0 s [] none
  rcases hl : GenerateCardsAsync.loop unmarshal cg pages.length pages 0 s [] none
    with ⟨⟨cards, prog⟩, s'⟩
  rw [hl] at h
  simp only [Option.map_none', List.nil_append, Prod.mk.injEq] at h
  have hp := h.2
  subst hp
  simp [GenerateCardsAsync, hl, h.1]

/-- C6 (the code at the failing input): page 1, generated successfully with a response whose
only entry has an empty answer, contributes no card at all: the delivered collection is
empty, so no card carries page number 1. -/
theorem GenerateCardsAsync_drops_page :
    sampleUnmarshal emptyAnswerResponse = (none, ⟨[⟨"Q", ""⟩]⟩) ∧
    (GenerateCardsAsync sampleUnmarshal
        (scriptedGenerator ([([emptyAnswerResponse], none)] : List (List String × Option Unit)))
        0 [⟨1, "text of page 1"⟩] (some [])).1.result = some [] := by
  decide

/-! ## Page numbers of the output -/

theorem map_pageNumber_eq_replicate (n : Int) (cards : List Card)
    (h : ∀ c ∈ cards, c.PageNumber = n) :
    cards.map Card.PageNumber = List.replicate cards.length n := by
  rw [List.eq_replicate_iff]
  refine ⟨by simp, ?_⟩
  intro b hb
  obtain ⟨c, hc, rfl⟩ := List.mem_map.1 hb
  exact h c hc

theorem contributions_expand {ε : Type} (f : Page → String × Option ε → List Card)
    (hf : ∀ page reply, ∀ c ∈ f page reply, c.PageNumber = page.Number)
    (pages : List Page) (replies : List (String × Option ε))
    (hlen : replies.length = pages.length) :
    ∃ counts : List Nat, counts.length = pages.length ∧
      (List.zipWith f pages replies).flatten.map Card.PageNumber
        = expandNumbers pages counts := by
  induction pages generalizing replies with
  | nil => exact ⟨[], rfl, by simp [expandNumbers]⟩
  | cons page rest ih =>
    cases replies with
    | nil => simp at hlen
    | cons reply others =>
      obtain ⟨counts, hc, heq⟩ := ih others (by simpa using hlen)
      refine ⟨(f page reply).length :: counts, by simp [hc], ?_⟩
      simp only [List.zipWith_cons_cons, List.flatten_cons, List.map_append, expandNumbers, heq,
        map_pageNumber_eq_replicate page.Number (f page reply) (hf page reply)]

theorem syncContribution_pageNumber {ε δ : Type} (unmarshal : Unmarshal δ) (page : Page)
    (reply : String × Option ε) :
    ∀ c ∈ syncContribution unmarshal page reply, c.PageNumber = page.Number := by
  intro c hc
  rcases reply with ⟨text, err⟩
  cases err with
  | none => exact parseCardsJSON_pageNumber unmarshal text page.Number page.Content c hc
  | some e => simp [syncContribution] at hc

theorem asyncContribution_pageNumber {ε δ : Type} (unmarshal : Unmarshal δ) (page : Page)
    (reply : String × Option ε) :
    ∀ c ∈ asyncContribution unmarshal page reply, c.PageNumber = page.Number := by
  intro c hc
  rcases reply with ⟨text, err⟩
  cases err with
  | none => exact parseCardsJSON_pageNumber unmarshal text page.Number page.Content c hc
  | some e =>
    simp only [asyncContribution, List.mem_singleton] at hc
    rw [hc]; rfl

/-- C9: for `GenerateCards` and for `GenerateCardsAsync`, the page numbers of the returned
cards are the input page numbers with each one replaced, in place, by zero or more copies of
itself: no other page number occurs, and the cards of different pages are neither reordered
nor interleaved. -/
theorem pageNumbers_in_page_order {σ ε δ : Type} (unmarshal : Unmarshal δ)
    (cg : CardGenerator σ ε) (s : σ) (pages : List Page) (progress : Option (List Int)) :
    (∃ counts : List Nat, counts.length = pages.length ∧
      (GenerateCards unmarshal cg s pages).1.1.map Card.PageNumber
        = expandNumbers pages counts) ∧
    (∃ counts : List Nat, counts.length = pages.length ∧
      (GenerateCardsAsync unmarshal cg s pages progress).1.result.map
          (fun cards => cards.map Card.PageNumber)
        = some (expandNumbers pages counts)) := by
  constructor
  · obtain ⟨counts, hc, heq⟩ := contributions_expand (syncContribution unmarshal)
      (syncContribution_pageNumber unmarshal) pages (clientReplies cg s pages)
      (clientReplies_length cg s pages)
    refine ⟨counts, hc, ?_⟩
    rw [GenerateCards_eq unmarshal cg s pages]
    exact heq
  · obtain ⟨counts, hc, heq⟩ := contributions_expand (asyncContribution unmarshal)
      (asyncContribution_pageNumber unmarshal) pages (clientReplies cg s pages)
      (clientReplies_length cg s pages)
    refine ⟨counts, hc, ?_⟩
    rw [GenerateCardsAsync_result unmarshal cg s pages progress, Option.map_some', heq]

/-! ## `float64` rounding -/

theorem log2Aux_spec (fuel n : Nat) (hn : 1 ≤ n) (hf : n ≤ fuel) :
    2 ^ log2Aux fuel n ≤ n ∧ n < 2 ^ (log2Aux fuel n + 1) := by
  induction fuel generalizing n with
  | zero => omega
  | succ fuel ih =>
    unfold log2Aux
    by_cases h2 : n < 2
    · simp only [h2, if_true]
      omega
    · simp only [h2, if_false]
      have := ih (n / 2) (by omega) (by omega)
      rw [pow_succ, pow_succ (n := log2Aux fuel (n / 2) + 1)]
      omega

theorem log2_spec (n : Nat) (hn : 1 ≤ n) : 2 ^ log2 n ≤ n ∧ n < 2 ^ (log2 n + 1) :=
  log2Aux_spec n n hn (Nat.le_refl n)

theorem roundHalfEven_spec (n D : Nat) (hD : 0 < D) :
    2 * (roundHalfEven n D * D) ≤ 2 * n + D ∧
    2 * n ≤ 2 * (roundHalfEven n D * D) + D ∧
    (2 * (roundHalfEven n D * D) + D = 2 * n → roundHalfEven n D % 2 = 0) ∧
    (2 * (roundHalfEven n D * D) = 2 * n + D → roundHalfEven n D % 2 = 0) := by
  have hdm := Nat.div_add_mod n D
  have hr := Nat.mod_lt n hD
  have hmul : D * (n / D) = n / D * D := Nat.mul_comm _ _
  have hsucc : (n / D + 1) * D = n / D * D + D := by ring
  unfold roundHalfEven
  simp only
  split_ifs with h1 h2 h3
  · refine ⟨?_, ?_, ?_, ?_⟩ <;> omega
  · rw [hsucc]; refine ⟨?_, ?_, ?_, ?_⟩ <;> omega
  · refine ⟨?_, ?_, ?_, ?_⟩ <;> omega
  · rw [hsucc]; refine ⟨?_, ?_, ?_, ?_⟩ <;> omega

theorem shifts_spec (n d : Nat) (hn : 1 ≤ n) (hd : 1 ≤ d) :
    2 ^ 52 * (d * 2 ^ (Float64.shifts n d).2) ≤ n * 2 ^ (Float64.shifts n d).1 ∧
    n * 2 ^ (Float64.shifts n d).1 < 2 ^ 53 * (d * 2 ^ (Float64.shifts n d).2) := by
  obtain ⟨hn1, hn2⟩ := log2_spec n hn
  obtain ⟨hd1, hd2⟩ := log2_spec d hd
  set ln := log2 n with hln
  set ld := log2 d with hld
  set u := (ld + 52) - ln with hu
  set v := ln - (ld + 52) with hv
  have hsum : ln + u = ld + 52 + v := by omega
  -- T = 2^ld * 2^v
  have hX1 : 2 ^ 52 * (2 ^ ld * 2 ^ v) ≤ n * 2 ^ u := by
    calc 2 ^ 52 * (2 ^ ld * 2 ^ v) = 2 ^ (ld + 52 + v) := by ring
      _ = 2 ^ ln * 2 ^ u := by rw [← hsum, pow_add]
      _ ≤ n * 2 ^ u := Nat.mul_le_mul_right _ hn1
  have hX2 : n * 2 ^ u < 2 ^ 53 * (2 ^ ld * 2 ^ v) := by
    calc n * 2 ^ u < 2 ^ (ln + 1) * 2 ^ u := Nat.mul_lt_mul_of_pos_right hn2 (by positivity)
      _ = 2 * 2 ^ (ln + u) := by ring
      _ = 2 ^ 53 * (2 ^ ld * 2 ^ v) := by rw [hsum]; ring
  have hY1 : 2 ^ ld * 2 ^ v ≤ d * 2 ^ v := Nat.mul_le_mul_right _ hd1
  have hY2 : d * 2 ^ v < 2 * (2 ^ ld * 2 ^ v) := by
    calc d * 2 ^ v < 2 ^ (ld + 1) * 2 ^ v := Nat.mul_lt_mul_of_pos_right hd2 (by positivity)
      _ = 2 * (2 ^ ld * 2 ^ v) := by ring
  unfold Float64.shifts
  simp only [← hln, ← hld, ← hu, ← hv]
  generalize hT : 2 ^ ld * 2 ^ v = T at hX1 hX2 hY1 hY2
  generalize hX : n * 2 ^ u = X at hX1 hX2
  generalize hY : d * 2 ^ v = Y at hY1 hY2
  split_ifs with h1 h2
  · simp only [hX, hY]
    constructor <;> omega
  · simp only
    have hv0 : (2:Nat) ^ v = 1 := by rw [h2]; rfl
    have hY' : d = Y := by rw [← hY, hv0]; ring
    have hX' : n * 2 ^ (u + 1) = 2 * X := by rw [← hX]; ring
    rw [hX', pow_zero, Nat.mul_one, hY']
    constructor <;> omega
  · simp only
    have hu0 : u = 0 := by omega
    have hX' : n * 2 ^ 0 = X := by rw [← hX, hu0]
    have hY' : Y = 2 * (d * 2 ^ (v - 1)) := by
      rw [← hY]
      have : v = (v - 1) + 1 := by omega
      conv_lhs => rw [this, pow_succ]
      ring
    rw [hX']
    generalize d * 2 ^ (v - 1) = Y' at hY'
    constructor <;> omega

theorem roundHalfEven_nearest (n D : Nat) (hD : 0 < D) :
    NearestEven (roundHalfEven n D) ((n : ℚ) / (D : ℚ)) := by
  obtain ⟨h1, h2, h3, h4⟩ := roundHalfEven_spec n D hD
  have hDq : (0 : ℚ) < (D : ℚ) := by exact_mod_cast hD
  set m := roundHalfEven n D with hm
  have h1q : (2 : ℚ) * (m * D) ≤ 2 * n + D := by exact_mod_cast h1
  have h2q : (2 : ℚ) * n ≤ 2 * (m * D) + D := by exact_mod_cast h2
  refine ⟨?_, ?_, ?_, ?_⟩
  · rw [le_div_iff₀ hDq]; linarith
  · rw [div_le_iff₀ hDq]; linarith
  · intro h
    apply h3
    rw [div_eq_iff hDq.ne'] at h
    have : ((2 * (m * D) + D : ℕ) : ℚ) = ((2 * n : ℕ) : ℚ) := by push_cast; linarith
    exact_mod_cast this
  · intro h
    apply h4
    rw [div_eq_iff hDq.ne'] at h
    have : ((2 * (m * D) : ℕ) : ℚ) = ((2 * n + D : ℕ) : ℚ) := by push_cast; linarith
    exact_mod_cast this

theorem NearestEven.mono {m m' : Nat} {x x' : ℚ} (h : NearestEven m x) (h' : NearestEven m' x')
    (hx : x ≤ x') : m ≤ m' := by
  by_contra hlt
  have hlt' : m' + 1 ≤ m := by omega
  have hq : (m' : ℚ) + 1 ≤ m := by exact_mod_cast hlt'
  obtain ⟨h1, -, -, h4⟩ := h
  obtain ⟨-, h2', h3', -⟩ := h'
  have e1 : x = (m : ℚ) - 1 / 2 := by linarith
  have e2 : x' = (m' : ℚ) + 1 / 2 := by linarith
  have e3 : (m : ℚ) = m' + 1 := by linarith
  have e3' : m = m' + 1 := by exact_mod_cast e3
  have := h4 e1
  have := h3' e2
  omega

theorem NearestEven.eq_of_nat {m j : Nat} (h : NearestEven m (j : ℚ)) : m = j := by
  obtain ⟨h1, h2, -, -⟩ := h
  have a : (m : ℚ) < j + 1 := by linarith
  have b : (j : ℚ) < m + 1 := by linarith
  have a' : m < j + 1 := by exact_mod_cast a
  have b' : j < m + 1 := by exact_mod_cast b
  omega

theorem NearestEven.lower {m : Nat} {x : ℚ} (h : NearestEven m x) (lo : Nat)
    (hlo : (lo : ℚ) ≤ x) : lo ≤ m := by
  obtain ⟨-, h2, -, -⟩ := h
  have a : (lo : ℚ) < m + 1 := by linarith
  have a' : lo < m + 1 := by exact_mod_cast a
  omega

theorem NearestEven.upper {m : Nat} {x : ℚ} (h : NearestEven m x) (hi : Nat)
    (hhi : x ≤ (hi : ℚ)) : m ≤ hi := by
  obtain ⟨h1, -, -, -⟩ := h
  have b : (m : ℚ) < hi + 1 := by linarith
  have b' : m < hi + 1 := by exact_mod_cast b
  omega

theorem ofRatio_spec (n d : Nat) (hn : 1 ≤ n) (hd : 1 ≤ d) :
    ∃ (z : ℤ) (m : ℕ), (Float64.ofRatio n d).val = (m : ℚ) * (2 : ℚ) ^ z ∧
      (2 : ℚ) ^ 52 * (2 : ℚ) ^ z ≤ (n : ℚ) / (d : ℚ) ∧
      (n : ℚ) / (d : ℚ) < (2 : ℚ) ^ 53 * (2 : ℚ) ^ z ∧
      NearestEven m ((n : ℚ) / (d : ℚ) / (2 : ℚ) ^ z) := by
  obtain ⟨hs1, hs2⟩ := shifts_spec n d hn hd
  rcases hs : Float64.shifts n d with ⟨u, v⟩
  rw [hs] at hs1 hs2
  simp only at hs1 hs2
  have hn0 : n ≠ 0 := by omega
  have hdq : (0 : ℚ) < (d : ℚ) := by exact_mod_cast hd
  have hz : (2 : ℚ) ^ ((v : ℤ) - (u : ℤ)) = (2 : ℚ) ^ v / (2 : ℚ) ^ u := by
    rw [zpow_sub₀ (by norm_num : (2 : ℚ) ≠ 0), zpow_natCast, zpow_natCast]
  have hu : (0 : ℚ) < (2 : ℚ) ^ u := by positivity
  have hv : (0 : ℚ) < (2 : ℚ) ^ v := by positivity
  have hD : 0 < d * 2 ^ v := by positivity
  have hx : (n : ℚ) / (d : ℚ) / ((2 : ℚ) ^ v / (2 : ℚ) ^ u)
      = ((n * 2 ^ u : ℕ) : ℚ) / ((d * 2 ^ v : ℕ) : ℚ) := by
    push_cast
    field_simp
  have hs1q : (2 : ℚ) ^ 52 * ((d : ℚ) * (2 : ℚ) ^ v) ≤ (n : ℚ) * (2 : ℚ) ^ u := by
    exact_mod_cast hs1
  have hs2q : (n : ℚ) * (2 : ℚ) ^ u < (2 : ℚ) ^ 53 * ((d : ℚ) * (2 : ℚ) ^ v) := by
    exact_mod_cast hs2
  refine ⟨(v : ℤ) - (u : ℤ), roundHalfEven (n * 2 ^ u) (d * 2 ^ v), ?_, ?_, ?_, ?_⟩
  · simp only [Float64.ofRatio, hn0, if_false, hs, Float64.val, hz]
    push_cast
    field_simp
  · rw [hz, le_div_iff₀ hdq]
    have : (2 : ℚ) ^ 52 * ((2 : ℚ) ^ v / (2 : ℚ) ^ u) * d
        = (2 : ℚ) ^ 52 * ((d : ℚ) * (2 : ℚ) ^ v) / (2 : ℚ) ^ u := by field_simp; ring
    rw [this, div_le_iff₀ hu]
    exact hs1q
  · rw [hz, div_lt_iff₀ hdq]
    have : (2 : ℚ) ^ 53 * ((2 : ℚ) ^ v / (2 : ℚ) ^ u) * d
        = (2 : ℚ) ^ 53 * ((d : ℚ) * (2 : ℚ) ^ v) / (2 : ℚ) ^ u := by field_simp; ring
    rw [this, lt_div_iff₀ hu]
    exact hs2q
  · rw [hz, hx]
    exact roundHalfEven_nearest _ _ hD

theorem ofRatio_mono (n d n' d' : Nat) (hn : 1 ≤ n) (hd : 1 ≤ d) (hn' : 1 ≤ n') (hd' : 1 ≤ d')
    (h : (n : ℚ) / (d : ℚ) ≤ (n' : ℚ) / (d' : ℚ)) :
    (Float64.ofRatio n d).val ≤ (Float64.ofRatio n' d').val := by
  obtain ⟨z, m, hval, hlo, hhi, hne⟩ := ofRatio_spec n d hn hd
  obtain ⟨z', m', hval', hlo', hhi', hne'⟩ := ofRatio_spec n' d' hn' hd'
  have hc : (0 : ℚ) < (2 : ℚ) ^ z := zpow_pos (by norm_num) z
  have hc' : (0 : ℚ) < (2 : ℚ) ^ z' := zpow_pos (by norm_num) z'
  have hxhi : (n : ℚ) / (d : ℚ) / (2 : ℚ) ^ z ≤ ((2 ^ 53 : ℕ) : ℚ) := by
    rw [div_le_iff₀ hc]; push_cast; exact hhi.le
  have hxlo' : ((2 ^ 52 : ℕ) : ℚ) ≤ (n' : ℚ) / (d' : ℚ) / (2 : ℚ) ^ z' := by
    rw [le_div_iff₀ hc']; push_cast; exact hlo'
  have hm := hne.upper _ hxhi
  have hm' := hne'.lower _ hxlo'
  have hmq : (m : ℚ) ≤ (2 : ℚ) ^ 53 := by exact_mod_cast hm
  have hmq' : (2 : ℚ) ^ 52 ≤ (m' : ℚ) := by exact_mod_cast hm'
  rw [hval, hval']
  rcases lt_trichotomy z z' with hz | hz | hz
  · have h2 : (2 : ℚ) ^ z * 2 ≤ (2 : ℚ) ^ z' := by
      rw [← zpow_add_one₀ (by norm_num : (2 : ℚ) ≠ 0)]
      exact zpow_le_zpow_right₀ (by norm_num) (by omega)
    calc (m : ℚ) * (2 : ℚ) ^ z ≤ (2 : ℚ) ^ 53 * (2 : ℚ) ^ z :=
          mul_le_mul_of_nonneg_right hmq hc.le
      _ = (2 : ℚ) ^ 52 * ((2 : ℚ) ^ z * 2) := by ring
      _ ≤ (2 : ℚ) ^ 52 * (2 : ℚ) ^ z' := mul_le_mul_of_nonneg_left h2 (by positivity)
      _ ≤ (m' : ℚ) * (2 : ℚ) ^ z' := mul_le_mul_of_nonneg_right hmq' hc'.le
  · subst hz
    have hx : (n : ℚ) / (d : ℚ) / (2 : ℚ) ^ z ≤ (n' : ℚ) / (d' : ℚ) / (2 : ℚ) ^ z :=
      div_le_div_of_nonneg_right h hc.le
    have := hne.mono hne' hx
    have hq : (m : ℚ) ≤ (m' : ℚ) := by exact_mod_cast this
    exact mul_le_mul_of_nonneg_right hq hc.le
  · exfalso
    have h2 : (2 : ℚ) ^ z' * 2 ≤ (2 : ℚ) ^ z := by
      rw [← zpow_add_one₀ (by norm_num : (2 : ℚ) ≠ 0)]
      exact zpow_le_zpow_right₀ (by norm_num) (by omega)
    have : (n' : ℚ) / (d' : ℚ) < (n : ℚ) / (d : ℚ) := by
      calc (n' : ℚ) / (d' : ℚ) < (2 : ℚ) ^ 53 * (2 : ℚ) ^ z' := hhi'
        _ = (2 : ℚ) ^ 52 * ((2 : ℚ) ^ z' * 2) := by ring
        _ ≤ (2 : ℚ) ^ 52 * (2 : ℚ) ^ z := mul_le_mul_of_nonneg_left h2 (by positivity)
        _ ≤ (n : ℚ) / (d : ℚ) := hlo
    linarith

theorem ofRatio_error (n d : Nat) (hn : 1 ≤ n) (hd : 1 ≤ d) :
    |(Float64.ofRatio n d).val - (n : ℚ) / (d : ℚ)| ≤ (n : ℚ) / (d : ℚ) / 2 ^ 53 := by
  obtain ⟨z, m, hval, hlo, hhi, hne⟩ := ofRatio_spec n d hn hd
  have hc : (0 : ℚ) < (2 : ℚ) ^ z := zpow_pos (by norm_num) z
  obtain ⟨h1, h2, -, -⟩ := hne
  rw [le_div_iff₀ hc] at h1
  rw [div_le_iff₀ hc] at h2
  rw [hval, abs_le, le_div_iff₀ (by positivity)]
  constructor <;> nlinarith

theorem ofRatio_exact (n d j : Nat) (hn : 1 ≤ n) (hd : 1 ≤ d) (hj : j < 2 ^ 53)
    (h : (n : ℚ) / (d : ℚ) = (j : ℚ)) : (Float64.ofRatio n d).val = (j : ℚ) := by
  obtain ⟨z, m, hval, hlo, hhi, hne⟩ := ofRatio_spec n d hn hd
  have hc : (0 : ℚ) < (2 : ℚ) ^ z := zpow_pos (by norm_num) z
  rw [h] at hlo hhi hne
  have hjq : (j : ℚ) < (2 : ℚ) ^ 53 := by exact_mod_cast hj
  have hz : z ≤ 0 := by
    by_contra hpos
    have h1 : (2 : ℚ) ^ (1 : ℤ) ≤ (2 : ℚ) ^ z := zpow_le_zpow_right₀ (by norm_num) (by omega)
    rw [zpow_one] at h1
    nlinarith
  obtain ⟨k, hk⟩ : ∃ k : ℕ, z = -(k : ℤ) := ⟨(-z).toNat, by omega⟩
  have hpow : (2 : ℚ) ^ z = ((2 : ℚ) ^ k)⁻¹ := by rw [hk, zpow_neg, zpow_natCast]
  have hk0 : (0 : ℚ) < (2 : ℚ) ^ k := by positivity
  have hx : (j : ℚ) / (2 : ℚ) ^ z = ((j * 2 ^ k : ℕ) : ℚ) := by
    rw [hpow]; push_cast; field_simp
  rw [hx] at hne
  have hm := hne.eq_of_nat
  rw [hval, hm, hpow]
  push_cast
  field_simp

theorem ofRatio_pos (n d : Nat) (hn : 1 ≤ n) (hd : 1 ≤ d) :
    1 ≤ (Float64.ofRatio n d).num ∧ 1 ≤ (Float64.ofRatio n d).den := by
  obtain ⟨hs1, -⟩ := shifts_spec n d hn hd
  rcases hs : Float64.shifts n d with ⟨u, v⟩
  rw [hs] at hs1
  simp only at hs1
  have hn0 : n ≠ 0 := by omega
  have hD : 0 < d * 2 ^ v := by positivity
  obtain ⟨-, h2, -, -⟩ := roundHalfEven_spec (n * 2 ^ u) (d * 2 ^ v) hD
  have hm : 1 ≤ roundHalfEven (n * 2 ^ u) (d * 2 ^ v) := by
    by_contra h0
    have h0' : roundHalfEven (n * 2 ^ u) (d * 2 ^ v) = 0 := by omega
    rw [h0'] at h2
    omega
  simp only [Float64.ofRatio, hn0, if_false, hs]
  constructor
  · exact Nat.mul_pos hm (by positivity)
  · exact Nat.one_le_two_pow

theorem val_pos (x : Float64) (hx : 1 ≤ x.num ∧ 1 ≤ x.den) : 0 < x.val := by
  have h1 : (0 : ℚ) < (x.num : ℚ) := by exact_mod_cast hx.1
  have h2 : (0 : ℚ) < (x.den : ℚ) := by exact_mod_cast hx.2
  exact div_pos h1 h2

theorem div_ratio (x y : Float64) (hx : 1 ≤ x.num ∧ 1 ≤ x.den) (hy : 1 ≤ y.num ∧ 1 ≤ y.den) :
    ((x.num * y.den : ℕ) : ℚ) / ((y.num * x.den : ℕ) : ℚ) = x.val / y.val := by
  have h1 : (x.num : ℚ) ≠ 0 := by exact_mod_cast (by omega : x.num ≠ 0)
  have h2 : (x.den : ℚ) ≠ 0 := by exact_mod_cast (by omega : x.den ≠ 0)
  have h3 : (y.num : ℚ) ≠ 0 := by exact_mod_cast (by omega : y.num ≠ 0)
  have h4 : (y.den : ℚ) ≠ 0 := by exact_mod_cast (by omega : y.den ≠ 0)
  simp only [Float64.val]
  push_cast
  field_simp
  ring

theorem mul_ratio (x y : Float64) (hx : 1 ≤ x.num ∧ 1 ≤ x.den) (hy : 1 ≤ y.num ∧ 1 ≤ y.den) :
    ((x.num * y.num : ℕ) : ℚ) / ((x.den * y.den : ℕ) : ℚ) = x.val * y.val := by
  have h2 : (x.den : ℚ) ≠ 0 := by exact_mod_cast (by omega : x.den ≠ 0)
  have h4 : (y.den : ℚ) ≠ 0 := by exact_mod_cast (by omega : y.den ≠ 0)
  simp only [Float64.val]
  push_cast
  field_simp

theorem ofInt_pos (k : Nat) (hk : 1 ≤ k) :
    1 ≤ (Float64.ofInt k).num ∧ 1 ≤ (Float64.ofInt k).den :=
  ofRatio_pos k 1 hk (le_refl 1)

theorem div_pos_parts (x y : Float64) (hx : 1 ≤ x.num ∧ 1 ≤ x.den)
    (hy : 1 ≤ y.num ∧ 1 ≤ y.den) :
    1 ≤ (Float64.div x y).num ∧ 1 ≤ (Float64.div x y).den :=
  ofRatio_pos _ _ (Nat.mul_pos hx.1 hy.2) (Nat.mul_pos hy.1 hx.2)

theorem mul_pos_parts (x y : Float64) (hx : 1 ≤ x.num ∧ 1 ≤ x.den)
    (hy : 1 ≤ y.num ∧ 1 ≤ y.den) :
    1 ≤ (Float64.mul x y).num ∧ 1 ≤ (Float64.mul x y).den :=
  ofRatio_pos _ _ (Nat.mul_pos hx.1 hy.1) (Nat.mul_pos hx.2 hy.2)

theorem ofInt_mono (i j : Nat) (hi : 1 ≤ i) (hij : i ≤ j) :
    (Float64.ofInt i).val ≤ (Float64.ofInt j).val := by
  apply ofRatio_mono i 1 j 1 hi (le_refl 1) (by omega) (le_refl 1)
  have : (i : ℚ) ≤ (j : ℚ) := by exact_mod_cast hij
  simpa using this

theorem ofInt_exact (k : Nat) (hk : 1 ≤ k) (hk2 : k < 2 ^ 53) : (Float64.ofInt k).val = (k : ℚ) :=
  ofRatio_exact k 1 k hk (le_refl 1) hk2 (by simp)

theorem div_mono (x x' y : Float64) (hx : 1 ≤ x.num ∧ 1 ≤ x.den)
    (hx' : 1 ≤ x'.num ∧ 1 ≤ x'.den) (hy : 1 ≤ y.num ∧ 1 ≤ y.den) (h : x.val ≤ x'.val) :
    (Float64.div x y).val ≤ (Float64.div x' y).val := by
  apply ofRatio_mono _ _ _ _ (Nat.mul_pos hx.1 hy.2) (Nat.mul_pos hy.1 hx.2)
    (Nat.mul_pos hx'.1 hy.2) (Nat.mul_pos hy.1 hx'.2)
  rw [div_ratio x y hx hy, div_ratio x' y hx' hy]
  exact div_le_div_of_nonneg_right h (val_pos y hy).le

theorem mul_mono (x x' y : Float64) (hx : 1 ≤ x.num ∧ 1 ≤ x.den)
    (hx' : 1 ≤ x'.num ∧ 1 ≤ x'.den) (hy : 1 ≤ y.num ∧ 1 ≤ y.den) (h : x.val ≤ x'.val) :
    (Float64.mul x y).val ≤ (Float64.mul x' y).val := by
  apply ofRatio_mono _ _ _ _ (Nat.mul_pos hx.1 hy.1) (Nat.mul_pos hx.2 hy.2)
    (Nat.mul_pos hx'.1 hy.1) (Nat.mul_pos hx'.2 hy.2)
  rw [mul_ratio x y hx hy, mul_ratio x' y hx' hy]
  exact mul_le_mul_of_nonneg_right h (val_pos y hy).le

theorem toInt_eq_floor (x : Float64) : x.toInt = ((⌊x.val⌋₊ : ℕ) : ℤ) := by
  simp only [Float64.toInt, Float64.val, Nat.floor_div_eq_div]

theorem toInt_mono (x y : Float64) (h : x.val ≤ y.val) : x.toInt ≤ y.toInt := by
  rw [toInt_eq_floor, toInt_eq_floor]
  exact_mod_cast Nat.floor_mono h

theorem percent_mono (i j N : Nat) (hij : i ≤ j) (hN : 1 ≤ N) : percent i N ≤ percent j N := by
  have hi := ofInt_pos (i + 1) (by omega)
  have hj := ofInt_pos (j + 1) (by omega)
  have hn := ofInt_pos N hN
  have hc := ofInt_pos 100 (by norm_num)
  apply toInt_mono
  apply mul_mono _ _ _ (div_pos_parts _ _ hi hn) (div_pos_parts _ _ hj hn) hc
  apply div_mono _ _ _ hi hj hn
  exact ofInt_mono _ _ (by omega) (by omega)

theorem percent_last (N : Nat) (hN : 1 ≤ N) : percent (N - 1) N = 100 := by
  have hn := ofInt_pos N hN
  have hc := ofInt_pos 100 (by norm_num)
  have hN' : N - 1 + 1 = N := by omega
  have h1 : (Float64.div (Float64.ofInt N) (Float64.ofInt N)).val = ((1 : ℕ) : ℚ) := by
    apply ofRatio_exact _ _ 1 (Nat.mul_pos hn.1 hn.2) (Nat.mul_pos hn.1 hn.2) (by norm_num)
    rw [div_ratio _ _ hn hn, div_self (val_pos _ hn).ne']
    simp
  have h100 : (Float64.ofInt 100).val = ((100 : ℕ) : ℚ) := ofInt_exact 100 (by norm_num) (by norm_num)
  have hd := div_pos_parts _ _ hn hn
  have h2 : (Float64.mul (Float64.div (Float64.ofInt N) (Float64.ofInt N))
      (Float64.ofInt 100)).val = ((100 : ℕ) : ℚ) := by
    apply ofRatio_exact _ _ 100 (Nat.mul_pos hd.1 hc.1) (Nat.mul_pos hd.2 hc.2) (by norm_num)
    rw [mul_ratio _ _ hd hc, h1, h100]
    simp
  rw [percent, hN', toInt_eq_floor, h2, Nat.floor_natCast]
  rfl

theorem percent_floor (k N : Nat) (hk : 1 ≤ k) (hkN : k ≤ N) (hN : N < 2 ^ 44) :
    percent (k - 1) N ≤ ((100 * k / N : ℕ) : ℤ) ∧
    ((100 * k / N : ℕ) : ℤ) ≤ percent (k - 1) N + 1 ∧
    (¬ N ∣ 100 * k → percent (k - 1) N = ((100 * k / N : ℕ) : ℤ)) := by
  have hN1 : 1 ≤ N := by omega
  have hfk := ofInt_pos k hk
  have hfn := ofInt_pos N hN1
  have hfc := ofInt_pos 100 (by norm_num)
  have hvk : (Float64.ofInt k).val = (k : ℚ) := ofInt_exact k hk (by omega)
  have hvn : (Float64.ofInt N).val = (N : ℚ) := ofInt_exact N hN1 (by omega)
  have hvc : (Float64.ofInt 100).val = (100 : ℚ) := by
    have := ofInt_exact 100 (by norm_num) (by norm_num)
    simpa using this
  have hfa := div_pos_parts _ _ hfk hfn
  have hNq : (0 : ℚ) < (N : ℚ) := by exact_mod_cast hN1
  have hkq : (0 : ℚ) < (k : ℚ) := by exact_mod_cast hk
  -- the quotient
  have hA := ofRatio_error _ _ (Nat.mul_pos hfk.1 hfn.2) (Nat.mul_pos hfn.1 hfk.2)
  rw [div_ratio _ _ hfk hfn, hvk, hvn] at hA
  change |(Float64.div (Float64.ofInt k) (Float64.ofInt N)).val - (k : ℚ) / N| ≤ _ at hA
  -- the product
  have hB := ofRatio_error _ _ (Nat.mul_pos hfa.1 hfc.1) (Nat.mul_pos hfa.2 hfc.2)
  rw [mul_ratio _ _ hfa hfc, hvc] at hB
  change |(Float64.mul (Float64.div (Float64.ofInt k) (Float64.ofInt N))
      (Float64.ofInt 100)).val - _| ≤ _ at hB
  have hk' : k - 1 + 1 = k := by omega
  rw [percent, hk', toInt_eq_floor]
  set A := (Float64.div (Float64.ofInt k) (Float64.ofInt N)).val with hAdef
  set B := (Float64.mul (Float64.div (Float64.ofInt k) (Float64.ofInt N))
      (Float64.ofInt 100)).val with hBdef
  set r : ℚ := (k : ℚ) / N with hr
  rw [abs_le] at hA hB
  have hr0 : 0 < r := div_pos hkq hNq
  have hr1 : r ≤ 1 := by
    rw [hr, div_le_one hNq]; exact_mod_cast hkN
  have hB0 : 0 ≤ B := by
    have : A * 100 / 2 ^ 53 ≤ A * 100 := by
      apply div_le_self _ (by norm_num)
      nlinarith [hA.1]
    have hA0 : 0 ≤ A := by
      have : r / 2 ^ 53 ≤ r := div_le_self hr0.le (by norm_num)
      linarith [hA.1]
    linarith [hB.1]
  -- the exact quotient and its floor
  set m0 := 100 * k / N with hm0
  have hm1 : m0 * N ≤ 100 * k := Nat.div_mul_le_self _ _
  have hmod := Nat.div_add_mod (100 * k) N
  have hlt := Nat.mod_lt (100 * k) hN1
  rw [← hm0] at hmod
  have hm2 : 100 * k + 1 ≤ m0 * N + N := by
    have : N * m0 = m0 * N := Nat.mul_comm _ _
    omega
  have hm1q : (m0 : ℚ) * N ≤ 100 * k := by exact_mod_cast hm1
  have hm2q : (100 : ℚ) * k + 1 ≤ m0 * N + N := by exact_mod_cast hm2
  have hrk : r * N = k := by rw [hr]; field_simp
  set w : ℚ := 1 / (N : ℚ) with hw
  have hwN : w * N = 1 := by rw [hw]; field_simp
  have hwpos : (1 : ℚ) / 2 ^ 44 < w := by
    rw [hw]
    apply one_div_lt_one_div_of_lt hNq
    exact_mod_cast hN
  have hlo : (m0 : ℚ) ≤ 100 * r := by
    have : (m0 : ℚ) * N ≤ (100 * r) * N := by rw [mul_assoc, hrk]; exact hm1q
    exact le_of_mul_le_mul_right this hNq
  have hhi : 100 * r + w ≤ (m0 : ℚ) + 1 := by
    have : (100 * r + w) * N ≤ ((m0 : ℚ) + 1) * N := by
      have e1 : (100 * r + w) * N = 100 * (r * N) + w * N := by ring
      rw [e1, hrk, hwN]
      linarith
    exact le_of_mul_le_mul_right this hNq
  have hfl1 : ((⌊B⌋₊ : ℕ) : ℚ) ≤ B := Nat.floor_le hB0
  have hfl2 : B < ((⌊B⌋₊ : ℕ) : ℚ) + 1 := Nat.lt_floor_add_one B
  obtain ⟨hA1, hA2⟩ := hA
  obtain ⟨hB1, hB2⟩ := hB
  have hBupper : B < (m0 : ℚ) + 1 := by
    norm_num at hA1 hA2 hB1 hB2 hwpos ⊢
    linarith
  have hBlower : (m0 : ℚ) - 1 < B := by
    norm_num at hA1 hA2 hB1 hB2 hwpos ⊢
    linarith
  refine ⟨?_, ?_, ?_⟩
  · have : ((⌊B⌋₊ : ℕ) : ℚ) < (m0 : ℚ) + 1 := lt_of_le_of_lt hfl1 hBupper
    have h' : ⌊B⌋₊ < m0 + 1 := by exact_mod_cast this
    have : ⌊B⌋₊ ≤ m0 := by omega
    exact_mod_cast this
  · have : (m0 : ℚ) < ((⌊B⌋₊ : ℕ) : ℚ) + 1 + 1 := by linarith
    have h' : m0 < ⌊B⌋₊ + 1 + 1 := by exact_mod_cast this
    have : m0 ≤ ⌊B⌋₊ + 1 := by omega
    exact_mod_cast this
  · intro hdvd
    have hne : N * m0 ≠ 100 * k := by
      intro h
      exact hdvd ⟨m0, h.symm⟩
    have hm3 : m0 * N + 1 ≤ 100 * k := by
      have : N * m0 = m0 * N := Nat.mul_comm _ _
      omega
    have hm3q : (m0 : ℚ) * N + 1 ≤ 100 * k := by exact_mod_cast hm3
    have hlo' : (m0 : ℚ) + w ≤ 100 * r := by
      have : ((m0 : ℚ) + w) * N ≤ (100 * r) * N := by
        have e1 : ((m0 : ℚ) + w) * N = m0 * N + w * N := by ring
        rw [e1, hwN, mul_assoc, hrk]
        exact hm3q
      exact le_of_mul_le_mul_right this hNq
    have hBge : (m0 : ℚ) ≤ B := by
      norm_num at hA1 hA2 hB1 hB2 hwpos ⊢
      linarith
    have h1 : m0 ≤ ⌊B⌋₊ := Nat.le_floor hBge
    have : ((⌊B⌋₊ : ℕ) : ℚ) < (m0 : ℚ) + 1 := lt_of_le_of_lt hfl1 hBupper
    have h' : ⌊B⌋₊ < m0 + 1 := by exact_mod_cast this
    have : ⌊B⌋₊ = m0 := by omega
    exact_mod_cast this

theorem percent_step (k N : Nat) (hk : 1 ≤ k) (hkN : k + 1 ≤ N) (hN : N < 100) :
    percent (k - 1) N < percent k N := by
  have hN44 : N < 2 ^ 44 := by
    have : (100 : ℕ) < 2 ^ 44 := by norm_num
    omega
  obtain ⟨h1, -, -⟩ := percent_floor k N hk (by omega) hN44
  obtain ⟨-, h2, h3⟩ := percent_floor (k + 1) N (by omega) hkN hN44
  rw [Nat.add_sub_cancel] at h2 h3
  have hN1 : 0 < N := by omega
  have hd0 := Nat.div_add_mod (100 * k) N
  have hr0 := Nat.mod_lt (100 * k) hN1
  have hd1 := Nat.div_add_mod (100 * (k + 1)) N
  have hr1 := Nat.mod_lt (100 * (k + 1)) hN1
  by_cases hdvd : N ∣ 100 * (k + 1)
  · have hmod : 100 * (k + 1) % N = 0 := Nat.mod_eq_zero_of_dvd hdvd
    have hlt : 100 * k / N + 2 ≤ 100 * (k + 1) / N := by
      by_contra hc
      have hc' : 100 * (k + 1) / N ≤ 100 * k / N + 1 := by omega
      have := Nat.mul_le_mul_left N hc'
      have e : N * (100 * k / N + 1) = N * (100 * k / N) + N := by ring
      omega
    have hltz : ((100 * k / N : ℕ) : ℤ) + 2 ≤ ((100 * (k + 1) / N : ℕ) : ℤ) := by
      exact_mod_cast hlt
    omega
  · have h3' := h3 hdvd
    have hlt : 100 * k / N + 1 ≤ 100 * (k + 1) / N := by
      by_contra hc
      have hc' : 100 * (k + 1) / N ≤ 100 * k / N := by omega
      have := Nat.mul_le_mul_left N hc'
      omega
    have hltz : ((100 * k / N : ℕ) : ℤ) + 1 ≤ ((100 * (k + 1) / N : ℕ) : ℤ) := by
      exact_mod_cast hlt
    omega

theorem percent_strict (i j N : Nat) (hij : i < j) (hj : j < N) (hN : N < 100) :
    percent i N < percent j N := by
  have h1 := percent_step (i + 1) N (by omega) (by omega) hN
  rw [Nat.add_sub_cancel] at h1
  exact lt_of_lt_of_le h1 (percent_mono (i + 1) j N (by omega) (by omega))


/-- Two roundings can lose an exact quotient: `57 / 100 * 100` is computed as
`56.99999999999999`, so the 57th of 100 values is 56, and the 28th and 29th are both 28. -/
theorem percent_of_hundred :
    percent 56 100 = 56 ∧ percent 27 100 = 28 ∧ percent 28 100 = 28 := by
  decide!

/-- Beyond `2^44` pages the two roundings can also carry a quotient up to the next integer:
here `100 * k / N` is below 67 and the computed value is 67. -/
theorem percent_above_floor :
    percent (91742954865674 - 1) 136929783381603 = 67 ∧
    100 * 91742954865674 / 136929783381603 = 66 := by
  decide!

/-! ## The progress stream of `GenerateCardsAsync` -/

/-- C7 (counterexample): over three pages the progress values are 33, 66 and 100; the second
one is 66, whereas `100 * 2 / 3` rounded to the nearest integer is 67. -/
theorem progress_not_rounded :
    (GenerateCardsAsync sampleUnmarshal silentGenerator 0 (numberedPages 3) (some [])).1.progress
      = some [33, 66, 100] ∧
    roundedPercent 2 3 = 67 ∧
    (GenerateCardsAsync sampleUnmarshal silentGenerator 0 (numberedPages 3)
        (some [])).1.progress.bind (fun sent => sent[2 - 1]?) ≠ some (roundedPercent 2 3) := by
  decide!

/-- C7 (amended): for `1 ≤ k ≤ N < 2^44`, the `k`-th progress value over `N` pages is
`100 * k / N` with the fraction discarded whenever `N` does not divide `100 * k`; when it
does, the value is that quotient or one less. -/
theorem progress_value_truncated {σ ε δ : Type} (unmarshal : Unmarshal δ)
    (cg : CardGenerator σ ε) (s : σ) (pages : List Page) (k : Nat)
    (hk : 1 ≤ k) (hkN : k ≤ pages.length) (hN : pages.length < 2 ^ 44) :
    ∃ (sent : List Int) (p : Int),
      (GenerateCardsAsync unmarshal cg s pages (some [])).1.progress = some sent ∧
      sent[k - 1]? = some p ∧
      p ≤ ((100 * k / pages.length : ℕ) : ℤ) ∧
      ((100 * k / pages.length : ℕ) : ℤ) ≤ p + 1 ∧
      (¬ pages.length ∣ 100 * k → p = ((100 * k / pages.length : ℕ) : ℤ)) := by
  refine ⟨_, percent (k - 1) pages.length,
    GenerateCardsAsync_progress unmarshal cg s pages [], ?_,
    percent_floor k pages.length hk hkN hN⟩
  rw [List.nil_append, List.getElem?_map, List.getElem?_range (by omega)]
  rfl

theorem progress_value_truncated_witness :
    ∃ (sent : List Int) (p : Int),
      (GenerateCardsAsync sampleUnmarshal silentGenerator 0 (numberedPages 3)
        (some [])).1.progress = some sent ∧
      sent[2 - 1]? = some p ∧
      p ≤ ((100 * 2 / (numberedPages 3).length : ℕ) : ℤ) ∧
      ((100 * 2 / (numberedPages 3).length : ℕ) : ℤ) ≤ p + 1 ∧
      (¬ (numberedPages 3).length ∣ 100 * 2 →
        p = ((100 * 2 / (numberedPages 3).length : ℕ) : ℤ)) :=
  progress_value_truncated sampleUnmarshal silentGenerator 0 (numberedPages 3) 2
    (by decide) (by decide) (by decide)

/-- C8 (counterexample): over 102 pages the stream has 102 values, and its 51st and 52nd
values are both 50, so it is not strictly increasing. -/
theorem progress_not_strictly_increasing :
    (GenerateCardsAsync sampleUnmarshal silentGenerator 0 (numberedPages 102)
        (some [])).1.progress.map (fun sent => (sent.length, sent[50]?, sent[51]?))
      = some (102, some 50, some 50) ∧
    (GenerateCardsAsync sampleUnmarshal silentGenerator 0 (numberedPages 102)
        (some [])).1.progress.map (fun sent => decide (sent.Pairwise (fun a b => a < b)))
      = some false := by
  decide!

/-- C8 (amended): over `N ≥ 1` pages the progress stream has exactly `N` values, never
decreases, and ends in 100; it is strictly increasing when `N < 100`. -/
theorem progress_stream_shape {σ ε δ : Type} (unmarshal : Unmarshal δ)
    (cg : CardGenerator σ ε) (s : σ) (pages : List Page) (hne : pages ≠ []) :
    ∃ sent : List Int,
      (GenerateCardsAsync unmarshal cg s pages (some [])).1.progress = some sent ∧
      sent.length = pages.length ∧
      sent.Pairwise (fun a b => a ≤ b) ∧
      sent.getLast? = some 100 ∧
      (pages.length < 100 → sent.Pairwise (fun a b => a < b)) := by
  have hN : 1 ≤ pages.length := by
    cases pages with
    | nil => exact absurd rfl hne
    | cons p ps => simp
  refine ⟨_, GenerateCardsAsync_progress unmarshal cg s pages [], by simp, ?_, ?_, ?_⟩
  · rw [List.nil_append, List.pairwise_map]
    exact (List.pairwise_lt_range pages.length).imp
      (fun {a b} hab => percent_mono a b pages.length (Nat.le_of_lt hab) hN)
  · rw [List.nil_append, List.getLast?_map, List.getLast?_range, if_neg (by omega)]
    simp only [Option.map_some', percent_last pages.length hN]
  · intro hlt
    rw [List.nil_append, List.pairwise_map]
    exact (List.pairwise_lt_range pages.length).imp_of_mem
      (fun {a b} _ hb hab => percent_strict a b pages.length hab (List.mem_range.1 hb) hlt)

theorem progress_stream_shape_witness :
    numberedPages 3 ≠ [] ∧
    ∃ sent : List Int,
      (GenerateCardsAsync sampleUnmarshal silentGenerator 0 (numberedPages 3)
        (some [])).1.progress = some sent ∧
      sent.length = (numberedPages 3).length ∧
      sent.Pairwise (fun a b => a ≤ b) ∧
      sent.getLast? = some 100 ∧
      ((numberedPages 3).length < 100 → sent.Pairwise (fun a b => a < b)) :=
  ⟨by decide, progress_stream_shape sampleUnmarshal silentGenerator 0 (numberedPages 3)
    (by decide)⟩

end AstroCards
